import Mathlib

/-!
Shallow embedding of the `gat-trait` procedural macro (src/gat-trait/src/lib.rs,
args.rs, expand.rs) and verification of the frozen claims about it.

The macro rewrites `async fn` methods of an annotated trait or trait impl into
signatures returning a per-method "result future" generic associated type.  We
embed the syntax-tree fragments the transformation inspects or produces as
plain inductive types, and the transformation functions (`expand`,
`transform_sig`, `transform_block`, argument parsing) as executable Lean
functions that mirror the Rust source line by line.  Spans and token positions
are not modelled; everywhere the source manipulates a `Span` only, the
embedding drops it.

The crate declares modules `lifetime`, `parse` and `receiver` whose files are
not part of the sources available here; the handful of helpers they export
(`CollectLifetimes`, `AddLifetimeToImplTrait`, `has_self_in_sig`,
`has_self_in_block`, `ReplaceSelf`, `mut_pat`, item parsing) are modelled from
the specification and are marked as such in their doc comments.
-/

namespace GatTrait

/-! ## Word splitting and UpperCamelCase (the `heck` dependency)

`expand.rs` calls `heck::ToUpperCamelCase` on `"{method}_result_future"`.
We embed heck's ASCII behaviour: split on non-alphanumeric characters, split
camel-case boundaries inside each run, then capitalize each word. -/

inductive WordMode
| boundary
| lowercase
| uppercase
deriving DecidableEq, Repr

/-- Split one alphanumeric run at camel-case boundaries, following heck's
state machine: a boundary falls between a lowercase-mode character and an
uppercase character, and before the last capital of an uppercase run that is
followed by a lowercase character. -/
def camelGo (mode : WordMode) (acc : List Char) : List Char → List (List Char)
  | [] => if acc.isEmpty then [] else [acc]
  | [c] => [acc ++ [c]]
  | c :: next :: rest =>
    let nextMode : WordMode :=
      if c.isLower then WordMode.lowercase
      else if c.isUpper then WordMode.uppercase
      else mode
    if nextMode = WordMode.lowercase ∧ next.isUpper then
      (acc ++ [c]) :: camelGo WordMode.boundary [] (next :: rest)
    else if mode = WordMode.uppercase ∧ c.isUpper ∧ next.isLower then
      acc :: camelGo WordMode.boundary [c] (next :: rest)
    else
      camelGo nextMode (acc ++ [c]) (next :: rest)

/-- Split a character list on non-alphanumeric characters (heck's outer word
split); separator characters are dropped and may produce empty segments,
which `camelGo` then ignores. -/
def splitNonAlnum : List Char → List (List Char)
  | [] => [[]]
  | c :: rest =>
    let r := splitNonAlnum rest
    if c.isAlphanum then
      match r with
      | [] => [[c]]
      | w :: ws => (c :: w) :: ws
    else [] :: r

/-- Capitalize one word: first character uppercased, the rest lowercased. -/
def capitalizeWord (w : List Char) : List Char :=
  match w with
  | [] => []
  | c :: rest => c.toUpper :: rest.map Char.toLower

/-- Embedding of `heck::ToUpperCamelCase::to_upper_camel_case` (ASCII). -/
def toUpperCamelCase (s : String) : String :=
  String.mk ((((splitNonAlnum s.toList).map (camelGo WordMode.boundary [])).flatten.map
    capitalizeWord).flatten)

/-- Embedding of `upper_camel_case_ret_future` (expand.rs:485-489): the name
of the generated result-future associated type. -/
def upper_camel_case_ret_future (func : String) : String :=
  toUpperCamelCase (func ++ "_result_future")

example : upper_camel_case_ret_future "run" = "RunResultFuture" := by decide

/-! ## Macro argument parsing (args.rs) -/

/-- One token of the attribute's argument stream, as the parser distinguishes
them: the `?` punctuation, an identifier, or anything else. -/
inductive ArgTok
| question
| ident (s : String)
| other (tokens : String)
deriving DecidableEq, Repr

/-- Embedding of `args::try_parse` (args.rs:23-31): a leading `?` must be
followed by the identifier `Send` (the `kw::Send` custom keyword) and yields
`local = true`; otherwise nothing is consumed and `local = false`. -/
def try_parse : List ArgTok → Option (Bool × List ArgTok)
  | ArgTok.question :: rest =>
    match rest with
    | ArgTok.ident s :: rest2 => if s = "Send" then some (true, rest2) else none
    | _ => none
  | toks => some (false, toks)

/-- The diagnostic message of `args::error` (args.rs:34-36). -/
def argsErrorMsg : String := "expected #[gat_trait] or #[gat_trait(?Send)]"

/-- Embedding of `<Args as Parse>::parse` (args.rs:14-21): `try_parse` must
succeed and leave the stream empty, otherwise the fixed error is raised.  The
returned Bool is the `local` field of `Args`. -/
def Args.parse (toks : List ArgTok) : Except String Bool :=
  match try_parse toks with
  | some (l, rest) => if rest.isEmpty then Except.ok l else Except.error argsErrorMsg
  | none => Except.error argsErrorMsg

example : Args.parse [] = Except.ok false := rfl
example : Args.parse [ArgTok.question, ArgTok.ident "Send"] = Except.ok true := rfl
example : Args.parse [ArgTok.ident "Send"] = Except.error argsErrorMsg := rfl

/-! ## Syntax-tree fragments

The subset of syn's grammar that `expand.rs` inspects: types (references with
optional lifetimes, paths with lifetime arguments, `impl Trait` types),
patterns, function arguments, signatures, trait/impl items.  Unmodelled
syntax is carried as verbatim token text. -/

/-- Types.  `pathLt` is a path with its lifetime arguments (`Self::X<'a>`,
`u8`, ...); `implTrait` carries the lifetimes and the trait paths of its
bounds; `unit` is `()`; other types are kept as raw tokens. -/
inductive Ty
| ref (lt : Option String) (mutable : Bool) (inner : Ty)
| pathLt (qself : Bool) (segs : List String) (ltArgs : List String)
| implTrait (lts : List String) (traitBounds : List (List String))
| unit
| verbatim (tokens : String)
deriving DecidableEq, Repr

/-- A bound after `:` or `+`: a lifetime, a trait path, or the generated
`::core::future::Future<Output = T>` bound. -/
inductive Bnd
| lt (s : String)
| traitB (segs : List String)
| future (output : Ty)
deriving DecidableEq, Repr

/-- A where-clause predicate `subject: bound + bound + ...`. -/
structure Pred where
  subject : String
  bounds : List Bnd
deriving DecidableEq, Repr

/-- A generic parameter of a signature or item, with its inline bounds. -/
inductive GenericParam
| tyParam (name : String) (bounds : List Bnd)
| ltParam (name : String) (bounds : List Bnd)
| constParam (tokens : String)
deriving DecidableEq, Repr

/-- Patterns of typed arguments: an identifier pattern with its `ref`/`mut`
binding modes, the wildcard `_`, or any other pattern kept as tokens together
with the fact whether it contains a `mut` binding (what `receiver::mut_pat`
reports). -/
inductive Pat
| ident (byRef : Bool) (mutable : Bool) (name : String)
| wild
| other (hasMut : Bool) (tokens : String)
deriving DecidableEq, Repr

/-- A function argument: a receiver (`self`, `&self`, `&'a mut self`, ...)
with `reference = some lifetime?` when it is a reference, or a typed argument
`pat: ty`. -/
inductive FnArg
| receiver (reference : Option (Option String)) (mutability : Bool)
| typed (pat : Pat) (ty : Ty)
deriving DecidableEq, Repr

/-- A method signature (syn `Signature`, restricted to the fields the
transformation reads or writes). -/
structure Signature where
  asyncness : Bool
  ident : String
  generics : List GenericParam
  whereClause : List Pred
  inputs : List FnArg
  output : Option Ty
deriving DecidableEq, Repr

/-- Method attributes: the two attributes `expand` appends plus opaque
pre-existing ones. -/
inductive Attr
| mustUse
| allowWithBody
| allowWithoutBody
| otherAttr (tokens : String)
deriving DecidableEq, Repr

/-- A statement of an input method body: a verbatim item statement (as the
empty-body marker `;` is parsed) or raw statement tokens. -/
inductive BStmt
| verbatimItem (tokens : String)
| tok (ts : List String)
deriving DecidableEq, Repr

/-- A statement generated by `transform_block` inside the `async move` block,
in the order the quoted tokens produce them:
`probe ret` is `if let ::core::option::Option::Some(__ret) =
::core::option::Option::None::<ret> { return __ret; }`;
`declSelf m` is `let (mut)? __self = self;`;
`declIdent m x` is `let (mut)? x = x;`;
`declPat p a` is `let p = a;`;
`letUnit ss` is `let _: () = { ss };`;
`letRet ret ss` is `let __ret: ret = { ss };`;
`allowRet` is `#[allow(unreachable_code)] __ret`;
`braced ss` is `{ ss }`; `orig s` splices an input statement unchanged. -/
inductive GStmt
| probe (ret : Ty)
| declSelf (mutable : Bool)
| declIdent (mutable : Bool) (name : String)
| declPat (p : Pat) (argName : String)
| letUnit (stmts : List BStmt)
| letRet (ret : Ty) (stmts : List BStmt)
| allowRet
| braced (stmts : List BStmt)
| orig (s : BStmt)
deriving DecidableEq, Repr

/-- A method body: either the parsed statement list, or—after
`transform_block`—a single `async move { ... }` statement holding the
generated body. -/
inductive Block
| plain (stmts : List BStmt)
| asyncWrapped (body : List GStmt)
deriving DecidableEq, Repr

/-- A trait associated-type declaration
`type name<params>: bounds where Self: ...;` (syn `TraitItemType`,
restricted to what the generated declaration uses). -/
structure TraitItemType where
  name : String
  params : List String
  bounds : List Bnd
  whereSelf : List Bnd
deriving DecidableEq, Repr

/-- The right-hand side of an impl associated type `type name<params> = ty;`:
either an ordinary type or an `impl Trait` type given by its bounds. -/
inductive ImplTy
| ofTy (t : Ty)
| implT (bounds : List Bnd)
deriving DecidableEq, Repr

/-- An impl associated-type definition (syn `ImplItemType`, restricted). -/
structure ImplItemType where
  name : String
  params : List String
  ty : ImplTy
deriving DecidableEq, Repr

/-- An item of a trait body. -/
inductive TraitItem
| method (attrs : List Attr) (sig : Signature) (dflt : Option Block)
| typeItem (t : TraitItemType)
| otherItem (tokens : String)
deriving DecidableEq, Repr

/-- An item of an impl body. -/
inductive ImplItem
| method (attrs : List Attr) (sig : Signature) (block : Block)
| typeItem (t : ImplItemType)
| otherItem (tokens : String)
deriving DecidableEq, Repr

/-- A trait path with its lifetime arguments, as mentioned in
`impl Trait<...> for Ty`. -/
structure TraitPath where
  segs : List String
  ltArgs : List String
deriving DecidableEq, Repr

/-- An annotated trait definition. -/
structure TraitDef where
  name : String
  generics : List GenericParam
  superTraits : List Bnd
  items : List TraitItem
deriving DecidableEq, Repr

/-- An annotated impl block.  `traitPath = none` models `impl Ty { ... }`
with no trait being implemented (syn `ItemImpl.trait_ = None`). -/
structure ImplDef where
  generics : List GenericParam
  traitPath : Option TraitPath
  selfTy : Ty
  items : List ImplItem
deriving DecidableEq, Repr

/-- Embedding of `parse::Item` (the macro's input, a trait or an impl). -/
inductive Item
| Trait (t : TraitDef)
| Impl (i : ImplDef)
deriving DecidableEq, Repr

/-- Embedding of `expand::Context` (expand.rs:27-37). -/
inductive Context
| traitCtx (generics : List GenericParam) (superTraits : List Bnd)
| implCtx (implGenerics : List GenericParam) (associatedTypeImplTraits : List String)
deriving DecidableEq, Repr

/-- Embedding of `Context::lifetimes` (expand.rs:39-54): the context's
lifetime parameters whose names occur in `used`. -/
def Context.lifetimes (ctx : Context) (used : List String) : List String :=
  let gens := match ctx with
    | Context.traitCtx g _ => g
    | Context.implCtx g _ => g
  gens.filterMap fun p => match p with
    | GenericParam.ltParam n _ => if used.contains n then some n else none
    | _ => none

/-! ## Helpers of the `lifetime` and `receiver` modules

lib.rs declares `mod lifetime;` and `mod receiver;` but their files are not
among the available sources; the definitions below are modelled from the
spec's description of the transformation ("rewrites method signatures to
introduce explicit lifetime parameters", "rewrites method bodies into
anonymous asynchronous blocks"). -/

/-- Modelled from the spec: state of `lifetime::CollectLifetimes` (module not
under src/): a name prefix, a counter for fresh names, the elided lifetimes
renamed so far (in order) and the explicit lifetimes seen. -/
structure CLState where
  pfx : String
  count : Nat
  elided : List String
  explicit : List String
deriving DecidableEq, Repr

/-- Modelled from the spec: mint the next fresh lifetime name
(`'life0, 'life1, ...` or `'impl0, ...`) and record it as elided. -/
def freshLt (st : CLState) : String × CLState :=
  let name := st.pfx ++ toString st.count
  (name, { st with count := st.count + 1, elided := st.elided ++ [name] })

/-- Modelled from the spec: visit one named lifetime; `'_` is renamed to a
fresh elided lifetime, others are recorded as explicit. -/
def clVisitLtStr (st : CLState) (s : String) : String × CLState :=
  if s = "_" then freshLt st
  else (s, { st with explicit := st.explicit ++ [s] })

/-- Modelled from the spec: visit a list of lifetime arguments in order. -/
def clVisitLtList (st : CLState) : List String → List String × CLState
  | [] => ([], st)
  | s :: rest =>
    let (s, st) := clVisitLtStr st s
    let (rest, st) := clVisitLtList st rest
    (s :: rest, st)

/-- Modelled from the spec: visit a type, renaming elided lifetimes (a
reference with no lifetime, or `'_`) to fresh ones and recording explicit
lifetimes. -/
def clVisitTy (st : CLState) : Ty → Ty × CLState
  | Ty.ref lt m inner =>
    let (lt2, st) := match lt with
      | none => let (n, st) := freshLt st; (some n, st)
      | some s => let (s, st) := clVisitLtStr st s; (some s, st)
    let (inner, st) := clVisitTy st inner
    (Ty.ref lt2 m inner, st)
  | Ty.pathLt q segs args =>
    let (args, st) := clVisitLtList st args
    (Ty.pathLt q segs args, st)
  | Ty.implTrait lts tbs =>
    let (lts, st) := clVisitLtList st lts
    (Ty.implTrait lts tbs, st)
  | t => (t, st)

/-- Modelled from the spec: visit one function argument (transform_sig's loop
at expand.rs:181-186 — a receiver's reference lifetime, or a typed
argument's type). -/
def clVisitArg (st : CLState) : FnArg → FnArg × CLState
  | FnArg.receiver r m =>
    (match r with
     | some none => let (n, st) := freshLt st; (FnArg.receiver (some (some n)) m, st)
     | some (some s) =>
       let (s, st) := clVisitLtStr st s
       (FnArg.receiver (some (some s)) m, st)
     | none => (FnArg.receiver none m, st))
  | FnArg.typed p t =>
    let (t, st) := clVisitTy st t
    (FnArg.typed p t, st)

/-- Modelled from the spec: visit all arguments in order. -/
def clVisitInputs (st : CLState) : List FnArg → List FnArg × CLState
  | [] => ([], st)
  | a :: rest =>
    let (a, st) := clVisitArg st a
    let (rest, st) := clVisitInputs st rest
    (a :: rest, st)

/-- Modelled from the spec: visit a trait path's lifetime arguments (the
impl arm of `expand` visits the implemented trait's path). -/
def clVisitPath (st : CLState) (p : TraitPath) : TraitPath × CLState :=
  let (args, st) := clVisitLtList st p.ltArgs
  ({ p with ltArgs := args }, st)

/-- Modelled from the spec: `lifetime::AddLifetimeToImplTrait` (module not
under src/) adds the `'gat_trait` lifetime as first bound of `impl Trait`
argument types. -/
def addLifetimeToImplTrait : Ty → Ty
  | Ty.ref lt m inner => Ty.ref lt m (addLifetimeToImplTrait inner)
  | Ty.implTrait lts tbs => Ty.implTrait ("'gat_trait" :: lts) tbs
  | t => t

/-- Modelled from the spec: `receiver::mut_pat` (module not under src/)
reports whether a pattern contains a `mut` binding. -/
def mut_pat : Pat → Bool
  | Pat.ident _ m _ => m
  | Pat.wild => false
  | Pat.other m _ => m

/-- Whether a type mentions `Self` in one of its path segments (used by the
modelled `has_self_in_sig`). -/
def tyMentionsSelf : Ty → Bool
  | Ty.ref _ _ inner => tyMentionsSelf inner
  | Ty.pathLt _ segs _ => segs.contains "Self"
  | _ => false

/-- Modelled from the spec: `receiver::has_self_in_sig` (module not under
src/): the signature takes a receiver, an argument named `self`, or mentions
`Self` in an argument type. -/
def has_self_in_sig (sig : Signature) : Bool :=
  sig.inputs.any fun a => match a with
    | FnArg.receiver _ _ => true
    | FnArg.typed p ty =>
      (match p with
       | Pat.ident _ _ n => n = "self"
       | _ => false) || tyMentionsSelf ty

/-- Modelled from the spec: `receiver::has_self_in_block` (module not under
src/): the body mentions the `self` token. -/
def has_self_in_block (b : Block) : Bool :=
  match b with
  | Block.plain stmts => stmts.any fun s => match s with
    | BStmt.tok ts => ts.contains "self"
    | _ => false
  | Block.asyncWrapped _ => false

/-- Modelled from the spec: `receiver::ReplaceSelf` (module not under src/)
rewrites the `self` token to `__self` throughout the body statements. -/
def replaceSelf (stmts : List BStmt) : List BStmt :=
  stmts.map fun s => match s with
    | BStmt.tok ts => BStmt.tok (ts.map fun t => if t = "self" then "__self" else t)
    | s => s

/-! ## transform_sig (expand.rs:165-316) -/

/-- Embedding of `positional_arg` (expand.rs:419-424), dropping spans: the
replacement identifier `__arg{i}` for a non-identifier argument pattern. -/
def positional_arg (i : Nat) : String := "__arg" ++ toString i

/-- Embedding of `has_bound` (expand.rs:426-441): whether the supertraits
contain the marker trait `marker`, either as a bare identifier path or as
`std::marker::marker` / `core::marker::marker`. -/
def has_bound (superTraits : List Bnd) (marker : String) : Bool :=
  superTraits.any fun b => match b with
    | Bnd.traitB segs =>
      segs = [marker] ∨
        (segs.length = 3 ∧ (segs.head? = some "std" ∨ segs.head? = some "core") ∧
          segs.get? 1 = some "marker" ∧ segs.get? 2 = some marker)
    | _ => false

/-- The loop at expand.rs:188-214: each type or lifetime generic parameter
keeps its name, loses its inline bounds, and contributes the where-clause
predicate `param: 'gat_trait + (its former bounds)`; const parameters are
untouched.  Returns the rewritten parameters and the predicates in order. -/
def moveParamBounds : List GenericParam → List GenericParam × List Pred
  | [] => ([], [])
  | p :: rest =>
    let (ps, preds) := moveParamBounds rest
    match p with
    | GenericParam.tyParam n bs =>
      (GenericParam.tyParam n [] :: ps, Pred.mk n (Bnd.lt "'gat_trait" :: bs) :: preds)
    | GenericParam.ltParam n bs =>
      (GenericParam.ltParam n [] :: ps, Pred.mk n (Bnd.lt "'gat_trait" :: bs) :: preds)
    | GenericParam.constParam t => (GenericParam.constParam t :: ps, preds)

/-- The loop at expand.rs:275-293: reference receivers are untouched, other
receivers lose their `mut`; identifier patterns lose `ref`/`mut`; any other
pattern is replaced by `(mut)? __arg{i}` (keeping `mut` when `mut_pat` finds
one inside); every typed argument's type goes through
`AddLifetimeToImplTrait`. -/
def stripInput (i : Nat) : FnArg → FnArg
  | FnArg.receiver (some r) m => FnArg.receiver (some r) m
  | FnArg.receiver none _ => FnArg.receiver none false
  | FnArg.typed p ty =>
    let ty := addLifetimeToImplTrait ty
    match p with
    | Pat.ident _ _ n => FnArg.typed (Pat.ident false false n) ty
    | p => FnArg.typed (Pat.ident false (mut_pat p) (positional_arg i)) ty

/-- All arguments through `stripInput`, indexed as the source enumerates. -/
def stripInputs (inputs : List FnArg) : List FnArg :=
  inputs.mapIdx stripInput

/-- The result `transform_sig` parses from its quoted tokens: a trait
associated-type declaration or an impl associated-type definition
(expand.rs:306-315). -/
inductive AssocOut
| traitDecl (t : TraitItemType)
| implDef (t : ImplItemType)
deriving DecidableEq, Repr

/-- Project the trait declaration out of an `AssocOut` (the trait arm of
`expand` only ever receives this variant). -/
def AssocOut.getTraitD : AssocOut → TraitItemType
  | AssocOut.traitDecl t => t
  | AssocOut.implDef _ => TraitItemType.mk "" [] [] []

/-- Project the impl definition out of an `AssocOut` (the impl arm of
`expand` only ever receives this variant). -/
def AssocOut.getImplD : AssocOut → ImplItemType
  | AssocOut.implDef t => t
  | AssocOut.traitDecl _ => ImplItemType.mk "" [] (ImplTy.ofTy Ty.unit)

/-- The Sync/Send choice at expand.rs:242-260: `Sync` when the first input is
an immutable reference receiver or an argument `self: &T`, `Send` otherwise. -/
def selfBoundMarker (inputs : List FnArg) : String :=
  match inputs.head? with
  | some (FnArg.receiver (some _) false) => "Sync"
  | some (FnArg.typed (Pat.ident _ _ "self") (Ty.ref _ false _)) => "Sync"
  | _ => "Send"

/-- Embedding of `transform_sig` (expand.rs:165-316), with the mutated
signature returned alongside the associated type parsed from the quoted
tokens.  The source's `asyncness.take().unwrap()` extracts the async token
only for its span, which we do not model; `expand` calls this function only
on async signatures. -/
def transform_sig (ctx : Context) (sig : Signature)
    (hasSelf hasDefault isLocal : Bool) : Signature × AssocOut :=
  let sig := { sig with asyncness := false }
  let ret := sig.output.getD Ty.unit
  let (inputs, cl) := clVisitInputs (CLState.mk "'life" 0 [] []) sig.inputs
  let sig := { sig with inputs := inputs }
  let (params, movedPreds) := moveParamBounds sig.generics
  let ctxLtPreds := (ctx.lifetimes cl.explicit).map fun l => Pred.mk l [Bnd.lt "'gat_trait"]
  let params := params ++ cl.elided.map fun l => GenericParam.ltParam l []
  let elidedPreds := cl.elided.map fun l => Pred.mk l [Bnd.lt "'gat_trait"]
  let params := params ++ [GenericParam.ltParam "'gat_trait" []]
  let selfPreds :=
    if hasSelf then
      let bound := selfBoundMarker sig.inputs
      let assumeBound := match ctx with
        | Context.traitCtx _ superTraits => !hasDefault || has_bound superTraits bound
        | Context.implCtx _ _ => true
      [if assumeBound || isLocal then Pred.mk "Self" [Bnd.lt "'gat_trait"]
       else Pred.mk "Self" [Bnd.traitB ["core", "marker", bound], Bnd.lt "'gat_trait"]]
    else []
  let sig := { sig with
    generics := params,
    whereClause := sig.whereClause ++ movedPreds ++ ctxLtPreds ++ elidedPreds ++ selfPreds,
    inputs := stripInputs sig.inputs }
  let bnds :=
    if isLocal then [Bnd.lt "'gat_trait"]
    else [Bnd.traitB ["core", "marker", "Send"], Bnd.lt "'gat_trait"]
  let retFutName := upper_camel_case_ret_future sig.ident
  let sig := { sig with
    output := some (Ty.pathLt false ["Self", retFutName] ["'gat_trait"]) }
  let assoc := match ctx with
    | Context.traitCtx _ _ =>
      AssocOut.traitDecl
        (TraitItemType.mk retFutName ["'gat_trait"] (Bnd.future ret :: bnds)
          [Bnd.lt "'gat_trait"])
    | Context.implCtx _ _ =>
      AssocOut.implDef
        (ImplItemType.mk retFutName ["'gat_trait"] (ImplTy.implT (Bnd.future ret :: bnds)))
  (sig, assoc)

/-! ## transform_block (expand.rs:335-417) -/

/-- The guard at expand.rs:336-340: a body consisting of exactly one verbatim
item statement whose token text is `";"`. -/
def isEmptyVerbatimSemi : List BStmt → Bool
  | [BStmt.verbatimItem t] => t = ";"
  | _ => false

/-- One rebinding declaration of the loop at expand.rs:343-380, for the
argument at position `i`. -/
def declOf (i : Nat) : FnArg → GStmt
  | FnArg.receiver _ m => GStmt.declSelf m
  | FnArg.typed p _ =>
    match p with
    | Pat.ident _ m n => if n = "self" then GStmt.declSelf m else GStmt.declIdent m n
    | Pat.wild => GStmt.declIdent false (positional_arg i)
    | p => GStmt.declPat p (positional_arg i)

/-- All rebinding declarations, one per argument in order. -/
def declsOf (inputs : List FnArg) : List GStmt :=
  inputs.mapIdx declOf

/-- Whether the loop at expand.rs:343-380 sets `self_span`: some argument is
a receiver or an identifier pattern named `self`. -/
def blockHasSelfParam (inputs : List FnArg) : Bool :=
  inputs.any fun a => match a with
    | FnArg.receiver _ _ => true
    | FnArg.typed (Pat.ident _ _ n) _ => n = "self"
    | _ => false

/-- Embedding of `contains_associated_type_impl_trait` (expand.rs:443-476)
on a type: a path `Self::N` with `N` among the impl's impl-trait associated
types, anywhere inside the type. -/
def tyContainsAssoc (set : List String) : Ty → Bool
  | Ty.ref _ _ inner => tyContainsAssoc set inner
  | Ty.pathLt q segs _ =>
    !q && (match segs with
           | ["Self", n] => set.contains n
           | _ => false)
  | _ => false

/-- Embedding of `contains_associated_type_impl_trait` (expand.rs:443-476):
always false in a trait context. -/
def contains_associated_type_impl_trait (ctx : Context) (ret : Ty) : Bool :=
  match ctx with
  | Context.traitCtx _ _ => false
  | Context.implCtx _ set => tyContainsAssoc set ret

/-- Embedding of `transform_block` (expand.rs:335-417): unless the body is
the empty-body marker `;`, replace the statement list by a single
`async move { ... }` statement whose body rebinds the arguments and evaluates
the original statements (with `self` rewritten to `__self` when the method
has a self argument), binding the result as `__ret` when the signature
declares a return type. -/
def transform_block (ctx : Context) (sig : Signature) (block : Block) : Block :=
  match block with
  | Block.asyncWrapped b => Block.asyncWrapped b
  | Block.plain stmts =>
    if isEmptyVerbatimSemi stmts then Block.plain stmts
    else
      let decls := declsOf sig.inputs
      let stmts := if blockHasSelfParam sig.inputs then replaceSelf stmts else stmts
      let inner : List GStmt :=
        match sig.output with
        | none => decls ++ [GStmt.letUnit stmts]
        | some ret =>
          if contains_associated_type_impl_trait ctx ret then
            if decls.isEmpty then stmts.map GStmt.orig
            else decls ++ [GStmt.braced stmts]
          else
            GStmt.probe ret :: decls ++ [GStmt.letRet ret stmts, GStmt.allowRet]
      Block.asyncWrapped inner

/-! ## expand (expand.rs:58-128) -/

/-- The trait arm's per-item work (expand.rs:66-83): an async method gets
`#[must_use]`, its body transformed (when present), a lint-suppression
attribute, and its signature transformed; everything else is untouched.  The
second component is the result-future associated type to append. -/
def transformTraitItem (ctx : Context) (isLocal : Bool) :
    TraitItem → TraitItem × Option TraitItemType
  | TraitItem.method attrs sig dflt =>
    if sig.asyncness then
      let hasSelf0 := has_self_in_sig sig
      let attrs := attrs ++ [Attr.mustUse]
      match dflt with
      | some block =>
        let hasSelf := hasSelf0 || has_self_in_block block
        let block := transform_block ctx sig block
        let attrs := attrs ++ [Attr.allowWithBody]
        let (sig2, assoc) := transform_sig ctx sig hasSelf true isLocal
        (TraitItem.method attrs sig2 (some block), some assoc.getTraitD)
      | none =>
        let attrs := attrs ++ [Attr.allowWithoutBody]
        let (sig2, assoc) := transform_sig ctx sig hasSelf0 false isLocal
        (TraitItem.method attrs sig2 none, some assoc.getTraitD)
    else (TraitItem.method attrs sig dflt, none)
  | it => (it, none)

/-- The trait arm of `expand` (expand.rs:60-88): transform the items, then
append the collected associated types to the trait body. -/
def expandTrait (t : TraitDef) (isLocal : Bool) : TraitDef :=
  let ctx := Context.traitCtx t.generics t.superTraits
  let pairs := t.items.map (transformTraitItem ctx isLocal)
  { t with items :=
      pairs.map Prod.fst ++ (pairs.filterMap Prod.snd).map TraitItem.typeItem }

/-- The impl arm's per-item work (expand.rs:111-122): an async method's body
and signature are transformed and the method gets the lint-suppression
attribute; everything else is untouched. -/
def transformImplItem (ctx : Context) (isLocal : Bool) :
    ImplItem → ImplItem × Option ImplItemType
  | ImplItem.method attrs sig block =>
    if sig.asyncness then
      let hasSelf := has_self_in_sig sig || has_self_in_block block
      let block := transform_block ctx sig block
      let (sig2, assoc) := transform_sig ctx sig hasSelf false isLocal
      let attrs := attrs ++ [Attr.allowWithBody]
      (ImplItem.method attrs sig2 block, some assoc.getImplD)
    else (ImplItem.method attrs sig block, none)
  | it => (it, none)

/-- The impl's associated types whose definition is an `impl Trait` type
(expand.rs:97-104). -/
def assocImplTraitSet (items : List ImplItem) : List String :=
  items.filterMap fun it => match it with
    | ImplItem.typeItem t =>
      match t.ty with
      | ImplTy.implT _ => some t.name
      | ImplTy.ofTy (Ty.implTrait _ _) => some t.name
      | _ => none
    | _ => none

/-- The lifetime collection of the impl arm (expand.rs:90-95): visit the self
type, then the implemented trait's path, with the `'impl` prefix. -/
def implCollect (i : ImplDef) (p : TraitPath) : Ty × TraitPath × CLState :=
  let st := CLState.mk "'impl" 0 [] []
  let (selfTy, st) := clVisitTy st i.selfTy
  let (path, st) := clVisitPath st p
  (selfTy, path, st)

/-- The impl generics after expand.rs:95: the collected elided lifetimes
prepended to the original parameters. -/
def implGenericsOf (i : ImplDef) (p : TraitPath) : List GenericParam :=
  (implCollect i p).2.2.elided.map (fun l => GenericParam.ltParam l []) ++ i.generics

/-- The `Context::Impl` value built at expand.rs:106-109. -/
def implContextOf (i : ImplDef) (p : TraitPath) : Context :=
  Context.implCtx (implGenericsOf i p) (assocImplTraitSet i.items)

/-- The impl arm of `expand` (expand.rs:89-126) for an impl whose trait path
is present: collect `'impl{i}` lifetimes from the self type and the trait
path, prepend them to the impl generics, transform the items, and append the
collected associated types. -/
def expandImpl (i : ImplDef) (p : TraitPath) (isLocal : Bool) : ImplDef :=
  let (selfTy, path, _) := implCollect i p
  let ctx := implContextOf i p
  let pairs := i.items.map (transformImplItem ctx isLocal)
  { i with
    selfTy := selfTy,
    traitPath := some path,
    generics := implGenericsOf i p,
    items := pairs.map Prod.fst ++ (pairs.filterMap Prod.snd).map ImplItem.typeItem }

/-- Embedding of `expand` (expand.rs:58-128).  The impl arm calls
`input.trait_.as_mut().unwrap()` (expand.rs:92); on an impl with no trait
path that unwrap panics, which we model as `none`. -/
def expand (input : Item) (isLocal : Bool) : Option Item :=
  match input with
  | Item.Trait t => some (Item.Trait (expandTrait t isLocal))
  | Item.Impl i =>
    match i.traitPath with
    | none => none
    | some p => some (Item.Impl (expandImpl i p isLocal))

/-! ## The macro entry point (lib.rs:28-33) -/

/-- The pre-parse shape of the annotated item: the token stream of a trait
definition, of an impl block, or of anything else. -/
inductive RawInput
| traitToks (t : TraitDef)
| implToks (i : ImplDef)
| otherToks (tokens : String)
deriving DecidableEq, Repr

/-- Modelled from the spec: `parse.rs` (the `Parse` impl for `parse::Item`)
is not under src/.  Per the spec's error-handling section, a decorated item
that is not a supported trait/impl shape is rejected with a compile-time
diagnostic; in particular an impl with no trait being implemented is not a
supported shape (the annotation applies to "a trait definition or an
implementation of such a trait"). -/
def parseItem : RawInput → Except String Item
  | RawInput.traitToks t => Except.ok (Item.Trait t)
  | RawInput.implToks i =>
    if i.traitPath.isNone then Except.error "expected a trait impl"
    else Except.ok (Item.Impl i)
  | RawInput.otherToks _ => Except.error "expected trait or impl block"

/-- Outcome of one macro invocation: rewritten tokens, a compiler diagnostic
(what `parse_macro_input!` emits as `compile_error!` on a parse failure), or
a panic escaping the proc macro. -/
inductive MacroOut
| expanded (it : Item)
| diagnostic (msg : String)
| panicked
deriving DecidableEq, Repr

/-- Embedding of `gat_trait` (lib.rs:28-33): parse the arguments, parse the
item, expand, and emit the rewritten item; parse failures become diagnostics
via `parse_macro_input!`. -/
def gat_trait (args : List ArgTok) (input : RawInput) : MacroOut :=
  match Args.parse args with
  | Except.error msg => MacroOut.diagnostic msg
  | Except.ok isLocal =>
    match parseItem input with
    | Except.error msg => MacroOut.diagnostic msg
    | Except.ok item =>
      match expand item isLocal with
      | none => MacroOut.panicked
      | some it => MacroOut.expanded it

/-! ## Helper lemmas -/

/-- The associated type produced by `transform_sig` in a trait context. -/
theorem transform_sig_snd_traitCtx (g : List GenericParam) (s : List Bnd)
    (sig : Signature) (hs hd l : Bool) :
    (transform_sig (Context.traitCtx g s) sig hs hd l).2 =
      AssocOut.traitDecl
        (TraitItemType.mk (upper_camel_case_ret_future sig.ident) ["'gat_trait"]
          (Bnd.future (sig.output.getD Ty.unit) ::
            (if l then [Bnd.lt "'gat_trait"]
             else [Bnd.traitB ["core", "marker", "Send"], Bnd.lt "'gat_trait"]))
          [Bnd.lt "'gat_trait"]) := rfl

/-- The associated type produced by `transform_sig` in an impl context. -/
theorem transform_sig_snd_implCtx (g : List GenericParam) (s : List String)
    (sig : Signature) (hs hd l : Bool) :
    (transform_sig (Context.implCtx g s) sig hs hd l).2 =
      AssocOut.implDef
        (ImplItemType.mk (upper_camel_case_ret_future sig.ident) ["'gat_trait"]
          (ImplTy.implT (Bnd.future (sig.output.getD Ty.unit) ::
            (if l then [Bnd.lt "'gat_trait"]
             else [Bnd.traitB ["core", "marker", "Send"], Bnd.lt "'gat_trait"])))) := rfl

/-- The rewritten signature is never async and returns the result-future
associated type. -/
theorem transform_sig_fst_async_output (ctx : Context) (sig : Signature)
    (hs hd l : Bool) :
    ((transform_sig ctx sig hs hd l).1).asyncness = false
    ∧ ((transform_sig ctx sig hs hd l).1).output =
        some (Ty.pathLt false ["Self", upper_camel_case_ret_future sig.ident]
          ["'gat_trait"]) := ⟨rfl, rfl⟩

/-! ## Claim theorems -/

/-- C1: for every async method in an annotated trait or impl, the transformed
signature is no longer async and its return type is `Self::{Name}<'gat_trait>`,
where `{Name}` is the UpperCamelCase conversion of the string
`{method_name}_result_future`; e.g. method `run` yields `RunResultFuture`. -/
theorem C1_ret_future_signature (ctx : Context) (sig : Signature)
    (hasSelf hasDefault isLocal : Bool) :
    ((transform_sig ctx sig hasSelf hasDefault isLocal).1).asyncness = false
    ∧ ((transform_sig ctx sig hasSelf hasDefault isLocal).1).output =
        some (Ty.pathLt false
          ["Self", toUpperCamelCase (sig.ident ++ "_result_future")] ["'gat_trait"])
    ∧ toUpperCamelCase ("run" ++ "_result_future") = "RunResultFuture" :=
  ⟨rfl, rfl, by decide⟩

/-- C4: the macro's optional modifier selects the bounds of every generated
result-future associated type: without argument (`local = false`) the type
carries `::core::future::Future<Output = Ret> + ::core::marker::Send +
'gat_trait`; with `?Send` (parsed as `local = true`) it carries only
`::core::future::Future<Output = Ret> + 'gat_trait` — in trait and in impl
contexts alike. -/
theorem C4_shareability_modifier (g : List GenericParam) (s : List Bnd)
    (gi : List GenericParam) (si : List String) (sig : Signature) (hs hd : Bool) :
    Args.parse [] = Except.ok false
    ∧ Args.parse [ArgTok.question, ArgTok.ident "Send"] = Except.ok true
    ∧ (transform_sig (Context.traitCtx g s) sig hs hd false).2 =
        AssocOut.traitDecl (TraitItemType.mk (upper_camel_case_ret_future sig.ident)
          ["'gat_trait"]
          [Bnd.future (sig.output.getD Ty.unit), Bnd.traitB ["core", "marker", "Send"],
            Bnd.lt "'gat_trait"]
          [Bnd.lt "'gat_trait"])
    ∧ (transform_sig (Context.traitCtx g s) sig hs hd true).2 =
        AssocOut.traitDecl (TraitItemType.mk (upper_camel_case_ret_future sig.ident)
          ["'gat_trait"]
          [Bnd.future (sig.output.getD Ty.unit), Bnd.lt "'gat_trait"]
          [Bnd.lt "'gat_trait"])
    ∧ (transform_sig (Context.implCtx gi si) sig hs hd false).2 =
        AssocOut.implDef (ImplItemType.mk (upper_camel_case_ret_future sig.ident)
          ["'gat_trait"]
          (ImplTy.implT [Bnd.future (sig.output.getD Ty.unit),
            Bnd.traitB ["core", "marker", "Send"], Bnd.lt "'gat_trait"]))
    ∧ (transform_sig (Context.implCtx gi si) sig hs hd true).2 =
        AssocOut.implDef (ImplItemType.mk (upper_camel_case_ret_future sig.ident)
          ["'gat_trait"]
          (ImplTy.implT [Bnd.future (sig.output.getD Ty.unit), Bnd.lt "'gat_trait"])) :=
  ⟨rfl, rfl, rfl, rfl, rfl, rfl⟩

/-- C6: parsing the argument stream fails exactly on streams that are neither
empty nor the two tokens `?` `Send`, always with the message
"expected #[gat_trait] or #[gat_trait(?Send)]"; the empty stream parses to
`local = false` and `?Send` to `local = true`. -/
theorem C6_args_grammar (toks : List ArgTok) :
    (Args.parse toks = Except.error argsErrorMsg ↔
      ¬(toks = [] ∨ toks = [ArgTok.question, ArgTok.ident "Send"]))
    ∧ (∀ e, Args.parse toks = Except.error e → e = argsErrorMsg)
    ∧ Args.parse [] = Except.ok false
    ∧ Args.parse [ArgTok.question, ArgTok.ident "Send"] = Except.ok true := by
  refine ⟨?_, ?_, rfl, rfl⟩
  · match toks with
    | [] => simp [Args.parse, try_parse]
    | ArgTok.ident s :: rest => simp [Args.parse, try_parse]
    | ArgTok.other s :: rest => simp [Args.parse, try_parse]
    | [ArgTok.question] => simp [Args.parse, try_parse]
    | ArgTok.question :: ArgTok.question :: rest => simp [Args.parse, try_parse]
    | ArgTok.question :: ArgTok.other s :: rest => simp [Args.parse, try_parse]
    | ArgTok.question :: ArgTok.ident s :: rest =>
      by_cases h : s = "Send"
      · subst h
        cases rest with
        | nil => simp [Args.parse, try_parse]
        | cons a rest2 => simp [Args.parse, try_parse]
      · simp [Args.parse, try_parse, h]
  · intro e he
    unfold Args.parse at he
    cases h : try_parse toks with
    | none => rw [h] at he; injection he with h1; exact h1.symm
    | some pr =>
      rw [h] at he
      obtain ⟨l, rest⟩ := pr
      by_cases hr : rest.isEmpty
      · simp [hr] at he
      · simp [hr] at he
        exact he.symm

/-- C6 witness: the theorem applied at a concrete failing stream discharges
its hypothesis. -/
theorem C6_args_grammar_witness : argsErrorMsg = "expected #[gat_trait] or #[gat_trait(?Send)]" :=
  (C6_args_grammar [ArgTok.other "x"]).2.1 "expected #[gat_trait] or #[gat_trait(?Send)]" rfl

/-- C2: expanding a trait or an impl appends, for each async method and in
order, exactly one associated type named after that method, taking exactly
the one generic parameter `'gat_trait`: in a trait a bounded declaration
`type Name<'gat_trait>: ::core::future::Future<Output = Ret> + ... where
Self: 'gat_trait;`, in an impl a definition `type Name<'gat_trait> =
impl ::core::future::Future<Output = Ret> + ...;`, with `Ret` the method's
original return type or `()`. -/
theorem C2_assoc_type_appended (t : TraitDef) (i : ImplDef) (p : TraitPath)
    (isLocal : Bool) :
    (expandTrait t isLocal).items =
      (t.items.map fun it =>
        (transformTraitItem (Context.traitCtx t.generics t.superTraits) isLocal it).1)
      ++ t.items.filterMap (fun it =>
          match it with
          | TraitItem.method _ sig _ =>
            if sig.asyncness then
              some (TraitItem.typeItem (TraitItemType.mk
                (upper_camel_case_ret_future sig.ident) ["'gat_trait"]
                (Bnd.future (sig.output.getD Ty.unit) ::
                  (if isLocal then [Bnd.lt "'gat_trait"]
                   else [Bnd.traitB ["core", "marker", "Send"], Bnd.lt "'gat_trait"]))
                [Bnd.lt "'gat_trait"]))
            else none
          | _ => none)
    ∧ (expandImpl i p isLocal).items =
      (i.items.map fun it => (transformImplItem (implContextOf i p) isLocal it).1)
      ++ i.items.filterMap (fun it =>
          match it with
          | ImplItem.method _ sig _ =>
            if sig.asyncness then
              some (ImplItem.typeItem (ImplItemType.mk
                (upper_camel_case_ret_future sig.ident) ["'gat_trait"]
                (ImplTy.implT (Bnd.future (sig.output.getD Ty.unit) ::
                  (if isLocal then [Bnd.lt "'gat_trait"]
                   else [Bnd.traitB ["core", "marker", "Send"], Bnd.lt "'gat_trait"])))))
            else none
          | _ => none) := by
  constructor
  · simp only [expandTrait]
    rw [List.map_map, List.filterMap_map, List.map_filterMap]
    congr 1
    congr 1
    funext it
    cases it with
    | method attrs sig dflt =>
      cases hb : sig.asyncness with
      | false => simp [transformTraitItem, hb]
      | true =>
        cases dflt <;>
          simp [transformTraitItem, hb, transform_sig_snd_traitCtx, AssocOut.getTraitD]
    | typeItem ti => rfl
    | otherItem s => rfl
  · simp only [expandImpl]
    rw [List.map_map, List.filterMap_map, List.map_filterMap]
    congr 1
    congr 1
    funext it
    cases it with
    | method attrs sig blk =>
      cases hb : sig.asyncness with
      | false => simp [transformImplItem, hb]
      | true =>
        simp [transformImplItem, hb, implContextOf, transform_sig_snd_implCtx,
          AssocOut.getImplD]
    | typeItem ti => rfl
    | otherItem s => rfl

/-- C9: a method body consisting of exactly one verbatim item statement whose
token text is `;` is returned by `transform_block` unchanged — it is not
wrapped in an `async move` block. -/
theorem C9_semicolon_body_untouched (ctx : Context) (sig : Signature) :
    transform_block ctx sig (Block.plain [BStmt.verbatimItem ";"]) =
      Block.plain [BStmt.verbatimItem ";"] := rfl

/-- Whether a trait item is a method with an async signature. -/
def TraitItem.isAsyncMethod : TraitItem → Bool
  | TraitItem.method _ sig _ => sig.asyncness
  | _ => false

/-- C7: expand rewrites only async methods: the expanded trait body is the
item-wise transformation followed by the appended result-future associated
types, and the item-wise transformation is the identity (producing no
appended type) on every item that is not a method or whose signature is not
async. -/
theorem C7_frame_non_async_untouched (t : TraitDef) (isLocal : Bool) :
    (expandTrait t isLocal).items =
      (t.items.map fun it =>
        (transformTraitItem (Context.traitCtx t.generics t.superTraits) isLocal it).1)
      ++ ((t.items.filterMap fun it =>
            (transformTraitItem (Context.traitCtx t.generics t.superTraits) isLocal it).2).map
          TraitItem.typeItem)
    ∧ ∀ it : TraitItem, it.isAsyncMethod = false →
        transformTraitItem (Context.traitCtx t.generics t.superTraits) isLocal it =
          (it, none) := by
  constructor
  · simp only [expandTrait]
    rw [List.map_map, List.filterMap_map]
    rfl
  · intro it h
    cases it with
    | method attrs sig dflt =>
      have hb : sig.asyncness = false := h
      simp [transformTraitItem, hb]
    | typeItem ti => rfl
    | otherItem s => rfl

/-- C7 witness: the theorem applied to a concrete non-method item. -/
theorem C7_frame_witness :
    transformTraitItem (Context.traitCtx [] []) false (TraitItem.otherItem "const N") =
      (TraitItem.otherItem "const N", none) :=
  (C7_frame_non_async_untouched (TraitDef.mk "T" [] [] []) false).2
    (TraitItem.otherItem "const N") rfl

/-- A trait item's attribute list (empty for non-methods). -/
def TraitItem.attrsOf : TraitItem → List Attr
  | TraitItem.method attrs _ _ => attrs
  | _ => []

/-- An impl item's attribute list (empty for non-methods). -/
def ImplItem.attrsOf : ImplItem → List Attr
  | ImplItem.method attrs _ _ => attrs
  | _ => []

/-- C8: every async method of an annotated trait — with or without a default
body — gets `#[must_use]` appended (followed by the lint-suppression
attribute), while an async method of an annotated impl only gets the
lint-suppression attribute and no `#[must_use]`. -/
theorem C8_must_use_trait_only (ctx : Context) (isLocal : Bool) (attrs : List Attr)
    (sig : Signature) (dflt : Option Block) (blk : Block)
    (h : sig.asyncness = true) :
    ((transformTraitItem ctx isLocal (TraitItem.method attrs sig dflt)).1).attrsOf =
      attrs ++ [Attr.mustUse,
        if dflt.isSome then Attr.allowWithBody else Attr.allowWithoutBody]
    ∧ ((transformImplItem ctx isLocal (ImplItem.method attrs sig blk)).1).attrsOf =
      attrs ++ [Attr.allowWithBody] := by
  constructor
  · cases dflt <;> simp [transformTraitItem, h, TraitItem.attrsOf]
  · simp [transformImplItem, h, ImplItem.attrsOf]

/-- C8 witness: the theorem applied to a concrete async method. -/
theorem C8_must_use_witness :
    ((transformTraitItem (Context.traitCtx [] []) false
        (TraitItem.method []
          (Signature.mk true "run" [] [] [] none) none)).1).attrsOf =
      [Attr.mustUse, Attr.allowWithoutBody]
    ∧ ((transformImplItem (Context.traitCtx [] []) false
        (ImplItem.method []
          (Signature.mk true "run" [] [] [] none) (Block.plain []))).1).attrsOf =
      [Attr.allowWithBody] :=
  C8_must_use_trait_only (Context.traitCtx [] []) false []
    (Signature.mk true "run" [] [] [] none) none (Block.plain []) rfl

/-- C5: the macro pipeline never panics — every invocation either expands or
raises a compile-time diagnostic — and an annotated impl with no trait being
implemented yields a diagnostic. -/
theorem C5_diagnostics_only (args : List ArgTok) (input : RawInput) (i : ImplDef)
    (h : i.traitPath = none) :
    gat_trait args input ≠ MacroOut.panicked
    ∧ gat_trait [] (RawInput.implToks i) =
        MacroOut.diagnostic "expected a trait impl" := by
  constructor
  · unfold gat_trait
    cases hA : Args.parse args with
    | error msg => simp
    | ok l =>
      cases input with
      | traitToks t => simp [parseItem, expand]
      | implToks j =>
        cases hp : j.traitPath with
        | none => simp [parseItem, hp]
        | some p => simp [parseItem, hp, expand]
      | otherToks s => simp [parseItem]
  · simp [gat_trait, Args.parse, try_parse, parseItem, h]

/-- C5 witness: the theorem applied to concrete inputs. -/
theorem C5_diagnostics_witness :
    gat_trait [] (RawInput.traitToks (TraitDef.mk "T" [] [] [])) ≠ MacroOut.panicked
    ∧ gat_trait [] (RawInput.implToks (ImplDef.mk [] none Ty.unit [])) =
        MacroOut.diagnostic "expected a trait impl" :=
  C5_diagnostics_only [] (RawInput.traitToks (TraitDef.mk "T" [] [] []))
    (ImplDef.mk [] none Ty.unit []) rfl

/-- C10: the signature rewrite strips binding modes while the generated block
restores them: a non-reference receiver loses `mut` in the signature but is
rebound as `let (mut)? __self = self;`; an identifier-pattern argument loses
`ref`/`mut` in the signature but is rebound as `let (mut)? x = x;` (an
argument named `self` as `__self`); a non-identifier pattern is renamed to
the positional identifier `__arg{i}` in the signature and destructured by a
`let` in the block.  `stripInput` is the per-argument loop of
`transform_sig`, `declOf` the per-argument loop of `transform_block`. -/
theorem C10_binding_modes (i : Nat) (r m : Bool) (n : String) (ty : Ty) (p : Pat) :
    (stripInput i (FnArg.receiver none m) = FnArg.receiver none false
      ∧ declOf i (FnArg.receiver none m) = GStmt.declSelf m)
    ∧ stripInput i (FnArg.typed (Pat.ident r m n) ty) =
        FnArg.typed (Pat.ident false false n) (addLifetimeToImplTrait ty)
    ∧ (n ≠ "self" →
        declOf i (FnArg.typed (Pat.ident r m n) ty) = GStmt.declIdent m n)
    ∧ declOf i (FnArg.typed (Pat.ident r m "self") ty) = GStmt.declSelf m
    ∧ ((∀ r2 m2 n2, p ≠ Pat.ident r2 m2 n2) →
        stripInput i (FnArg.typed p ty) =
          FnArg.typed (Pat.ident false (mut_pat p) (positional_arg i))
            (addLifetimeToImplTrait ty))
    ∧ (p = Pat.wild →
        declOf i (FnArg.typed p ty) = GStmt.declIdent false (positional_arg i))
    ∧ ((∀ r2 m2 n2, p ≠ Pat.ident r2 m2 n2) → p ≠ Pat.wild →
        declOf i (FnArg.typed p ty) = GStmt.declPat p (positional_arg i)) := by
  refine ⟨⟨rfl, rfl⟩, rfl, ?_, by simp [declOf], ?_, ?_, ?_⟩
  · intro hn
    simp [declOf, hn]
  · intro hni
    cases p with
    | ident r2 m2 n2 => exact absurd rfl (hni r2 m2 n2)
    | wild => rfl
    | other hm ts => rfl
  · intro hw
    subst hw
    rfl
  · intro hni hw
    cases p with
    | ident r2 m2 n2 => exact absurd rfl (hni r2 m2 n2)
    | wild => exact absurd rfl hw
    | other hm ts => rfl

/-- C10 witness: the theorem applied at concrete arguments, discharging each
hypothesis. -/
theorem C10_binding_modes_witness :
    declOf 1 (FnArg.typed (Pat.ident true true "x") Ty.unit) = GStmt.declIdent true "x"
    ∧ stripInput 1 (FnArg.typed (Pat.other true "(a, b)") Ty.unit) =
        FnArg.typed (Pat.ident false true (positional_arg 1)) (addLifetimeToImplTrait Ty.unit)
    ∧ declOf 1 (FnArg.typed (Pat.other true "(a, b)") Ty.unit) =
        GStmt.declPat (Pat.other true "(a, b)") (positional_arg 1) :=
  ⟨(C10_binding_modes 1 true true "x" Ty.unit Pat.wild).2.2.1 (by decide),
   (C10_binding_modes 1 true true "x" Ty.unit (Pat.other true "(a, b)")).2.2.2.2.1
     (fun r2 m2 n2 h => Pat.noConfusion h),
   (C10_binding_modes 1 true true "x" Ty.unit (Pat.other true "(a, b)")).2.2.2.2.2.2
     (fun r2 m2 n2 h => Pat.noConfusion h) (fun h => Pat.noConfusion h)⟩

/-- The body that claim C3 describes, built from the claim's words (not from
the source): first the parameter rebindings, then, for a declared return
type `Ret`, `let __ret: Ret = { original statements };` yielding `__ret`,
or, with no declared return type, the original statements. -/
def c3ClaimedBody (sig : Signature) (stmts : List BStmt) : List GStmt :=
  declsOf sig.inputs ++
    match sig.output with
    | some ret => [GStmt.letRet ret stmts, GStmt.allowRet]
    | none => [GStmt.letUnit stmts]

/-- A concrete async method `async fn get(&self) -> u8` used to refute C3. -/
def c3Sig : Signature :=
  Signature.mk true "get" [] [] [FnArg.receiver (some none) false]
    (some (Ty.pathLt false ["u8"] []))

/-- The concrete body `{ 1 }` used to refute C3. -/
def c3Blk : List BStmt := [BStmt.tok ["1"]]

/-- C3 counterexample: for a method with a declared return type the generated
`async move` block does not begin with the parameter rebindings — the claim's
body shape is not what `transform_block` produces (a type-probe `if let`
statement comes first). -/
theorem C3_counterexample :
    transform_block (Context.traitCtx [] []) c3Sig (Block.plain c3Blk) ≠
      Block.asyncWrapped (c3ClaimedBody c3Sig c3Blk) := by decide

/-- C3 amended: for an async method with a body (other than the empty-body
marker `;`) whose declared return type does not mention the impl's impl-trait
associated types, the rewritten body is a single `async move { ... }`
statement that, for a declared return type `Ret`, begins with the type-probe
statement `if let Some(__ret) = None::<Ret> { return __ret; }`, then rebinds
each original parameter (`self` as `__self`), then binds
`let __ret: Ret = { original statements, with self rewritten to __self };`
and finally yields `__ret` under `#[allow(unreachable_code)]`; with no
declared return type it rebinds the parameters and then evaluates the
original statements as `let _: () = { ... };`. -/
theorem C3_async_move_block (ctx : Context) (sig : Signature) (stmts : List BStmt)
    (hne : isEmptyVerbatimSemi stmts = false)
    (hassoc : ∀ ret, sig.output = some ret →
      contains_associated_type_impl_trait ctx ret = false) :
    transform_block ctx sig (Block.plain stmts) =
      Block.asyncWrapped
        (match sig.output with
         | some ret =>
           GStmt.probe ret :: declsOf sig.inputs ++
             [GStmt.letRet ret
                (if blockHasSelfParam sig.inputs then replaceSelf stmts else stmts),
              GStmt.allowRet]
         | none =>
           declsOf sig.inputs ++
             [GStmt.letUnit
                (if blockHasSelfParam sig.inputs then replaceSelf stmts else stmts)]) := by
  cases ho : sig.output with
  | none => simp [transform_block, hne, ho]
  | some ret => simp [transform_block, hne, ho, hassoc ret ho]

/-- C3 witness: the amended theorem applied at the concrete method
`async fn get(&self) -> u8 { 1 }`. -/
theorem C3_async_move_block_witness :
    transform_block (Context.traitCtx [] []) c3Sig (Block.plain c3Blk) =
      Block.asyncWrapped [GStmt.probe (Ty.pathLt false ["u8"] []), GStmt.declSelf false,
        GStmt.letRet (Ty.pathLt false ["u8"] []) c3Blk, GStmt.allowRet] :=
  C3_async_move_block (Context.traitCtx [] []) c3Sig c3Blk rfl
    (fun ret h => by cases h; rfl)

end GatTrait
